import Mathlib

/-!
Verification of the build critical-path engine in
`app/buck2_build_api/src/actions/build_listener.rs`.

The Rust code is shallowly embedded: `std::time::Duration` becomes `Nat`
(nanoseconds; the only operations used are `+`, `saturating_sub`, comparison,
`Duration::ZERO` and `as_micros`, all order- and addition-compatible),
`HashMap` becomes an association list with insert-or-overwrite, iterator
combinators become explicit list functions mirroring their Rust semantics
(`Itertools::unique` keeps the first occurrence of each key;
`Iterator::max_by_key` returns the last maximal element on ties).
-/

set_option autoImplicit false

namespace BuildListener

/-- Identity of an executed action (`ActionKey` in the source); only its
decidable equality is used by this module. -/
structure ActionKey where
  id : Nat
  deriving DecidableEq, Repr

/-- Identity of a transitive-set projection (`TransitiveSetProjectionKey`);
only decidable equality is used. -/
structure TransitiveSetProjectionKey where
  id : Nat
  deriving DecidableEq, Repr

/-- `NodeKey`: a graph vertex is either an executed action or a projection. -/
inductive NodeKey where
  | actionKey (k : ActionKey)
  | transitiveSetProjection (k : TransitiveSetProjectionKey)
  deriving DecidableEq, Repr

/-- The metadata attached to an executed action (`Arc<RegisteredAction>`):
the fields the listener reads are the key, owner, category and identifier. -/
structure RegisteredAction where
  key : ActionKey
  owner : String
  category : String
  identifier : Option String
  deriving DecidableEq, Repr

/-- `CriticalPathNode<TKey, TValue>`: cumulative duration, optional value
(absent for synthetic nodes), optional predecessor key. -/
structure CriticalPathNode (K V : Type) where
  duration : Nat
  value : Option V
  prev : Option K
  deriving DecidableEq, Repr

/-- Association-list lookup, modelling `HashMap::get`. -/
def lookupA {K V : Type} [DecidableEq K] (m : List (K × V)) (k : K) : Option V :=
  (m.find? (fun p => p.1 = k)).map (fun p => p.2)

/-- Association-list insert-or-overwrite, modelling `HashMap::insert`. -/
def insertA {K V : Type} [DecidableEq K] (m : List (K × V)) (k : K) (v : V) :
    List (K × V) :=
  if m.any (fun p => p.1 = k) then
    m.map (fun p => if p.1 = k then (k, v) else p)
  else
    m ++ [(k, v)]

/-- `Itertools::unique`: deduplicate, keeping the first occurrence of each
element, preserving order. `seen` carries elements already emitted. -/
def uniqueAux {A : Type} [DecidableEq A] (seen : List A) : List A → List A
  | [] => []
  | a :: l => if a ∈ seen then uniqueAux seen l else a :: uniqueAux (a :: seen) l

/-- `Itertools::unique` with no elements seen yet. -/
def uniqueList {A : Type} [DecidableEq A] (l : List A) : List A :=
  uniqueAux [] l

/-- One step of `Iterator::max_by_key`'s fold: keep the running maximum,
replacing it when the new element's key is at least as large (so on a tie
the later element wins, as in Rust's `max_by_key`). -/
def maxStep {A : Type} (f : A → Nat) (acc : Option A) (x : A) : Option A :=
  match acc with
  | none => some x
  | some a => if f a ≤ f x then some x else some a

/-- `Iterator::max_by_key`: maximal element by `f`, the LAST one on ties
(Rust's `max_by_key` keeps the later of two equal elements). -/
def maxByKeyLast {A : Type} (f : A → Nat) (l : List A) : Option A :=
  l.foldl (maxStep f) none

/-- State of the streaming backend (`DefaultBackend`): predecessor map plus
node and edge counters. -/
structure DefaultBackend where
  predecessors : List (NodeKey × CriticalPathNode NodeKey RegisteredAction)
  num_nodes : Nat
  num_edges : Nat
  deriving Repr

/-- `DefaultBackend::new`. -/
def DefaultBackend.new : DefaultBackend :=
  { predecessors := [], num_nodes := 0, num_edges := 0 }

/-- The deduplicated dependency keys that have a record in the map, paired
with their records, in dependency order (the `filter_map` in
`DefaultBackend::process_node`; the `?` on `get` drops unrecorded keys). -/
def recordedDeps (m : List (NodeKey × CriticalPathNode NodeKey RegisteredAction))
    (dep_keys : List NodeKey) :
    List (NodeKey × CriticalPathNode NodeKey RegisteredAction) :=
  (uniqueList dep_keys).filterMap
    (fun nk => (lookupA m nk).map (fun nd => (nk, nd)))

/-- The record built by `DefaultBackend::process_node` (its `node` local):
the `longest_ancestor` is the recorded dependency of maximal cumulative
duration (`max_by_key`, last on ties); the new cumulative duration adds the
node's own duration to the ancestor's, or stands alone when no dependency
is recorded. -/
def processNodeRecord (m : List (NodeKey × CriticalPathNode NodeKey RegisteredAction))
    (value : Option RegisteredAction) (duration : Nat)
    (dep_keys : List NodeKey) : CriticalPathNode NodeKey RegisteredAction :=
  match maxByKeyLast (fun d => d.2.duration) (recordedDeps m dep_keys) with
  | some (k, data) =>
      { prev := some k, value := value, duration := data.duration + duration }
  | none => { prev := none, value := value, duration := duration }

/-- `DefaultBackend::process_node`: insert-or-overwrite the key's record
(built by `processNodeRecord`), count one node per call and one edge per
deduplicated dependency key (recorded or not — the counter increment
precedes the `?` on the map lookup in the source). -/
def DefaultBackend.process_node (st : DefaultBackend) (key : NodeKey)
    (value : Option RegisteredAction) (duration : Nat)
    (dep_keys : List NodeKey) : DefaultBackend :=
  { predecessors := insertA st.predecessors key
      (processNodeRecord st.predecessors value duration dep_keys)
    num_nodes := st.num_nodes + 1
    num_edges := st.num_edges + (uniqueList dep_keys).length }

/-- Terminal choice in `extract_critical_path`: the map entry of maximal
cumulative duration (`max_by_key` over the map's iteration). -/
def terminalKey {K V : Type} [DecidableEq K]
    (m : List (K × CriticalPathNode K V)) : Option K :=
  (maxByKeyLast (fun p => p.2.duration) m).map (fun p => p.1)

/-- The `itertools::unfold` walk of `extract_critical_path`, made total with
fuel: starting from an optional key, emit `(key, value, cumulative duration)`
and step to `prev`; stop when the key is `none` or absent from the map.
`none` means the fuel ran out before the walk stopped. -/
def cpWalk {K V : Type} [DecidableEq K]
    (m : List (K × CriticalPathNode K V)) :
    Option K → Nat → Option (List (K × Option V × Nat))
  | none, _ => some []
  | some _, 0 => none
  | some k, fuel + 1 =>
    match lookupA m k with
    | none => some []
    | some nd =>
      (cpWalk m nd.prev fuel).map (fun l => (k, nd.value, nd.duration) :: l)

/-- The in-place difference loop after `path.reverse()`: each entry's
duration becomes its cumulative value minus the previous entry's original
cumulative value (`saturating_sub`, which on `Nat` is `-`). -/
def diffTail {K V : Type} (prevCum : Nat) :
    List (K × Option V × Nat) → List (K × Option V × Nat)
  | [] => []
  | y :: rest => (y.1, y.2.1, y.2.2 - prevCum) :: diffTail y.2.2 rest

/-- Convert cumulative durations to per-node durations: the first entry keeps
its full value, each later entry subtracts its predecessor's cumulative. -/
def diffAdjacent {K V : Type} :
    List (K × Option V × Nat) → List (K × Option V × Nat)
  | [] => []
  | x :: rest => x :: diffTail x.2.2 rest

/-- `extract_critical_path`: walk back from the maximal-duration terminal,
reverse, and take adjacent differences. Fuel bounds the walk; `none` means
the source loop would not have terminated within that many steps. -/
def extract_critical_path {K V : Type} [DecidableEq K]
    (m : List (K × CriticalPathNode K V)) (fuel : Nat) :
    Option (List (K × Option V × Nat)) :=
  (cpWalk m (terminalKey m) fuel).map (fun path => diffAdjacent path.reverse)

/-- `buck2_data::CriticalPathEntry` as filled in by the two `finish`
implementations: display name, structured key, per-node duration, and the
category/identifier field pair. -/
structure CriticalPathEntry where
  action_name : String
  action_key : Option ActionKey
  duration : Option Nat
  action_name_fields : Option (String × String)
  deriving DecidableEq, Repr

/-- `BuildInfo`: the summary a backend produces at finalization. -/
structure BuildInfo where
  critical_path : List CriticalPathEntry
  num_nodes : Nat
  num_edges : Nat
  deriving DecidableEq, Repr

/-- The display-name rendering shared by both `finish` implementations:
`"{owner} {category}"` plus `"[identifier]"` when an identifier is present. -/
def actionName (action : RegisteredAction) : String :=
  action.owner ++ " " ++ action.category ++
    (match action.identifier with
     | some v => "[" ++ v ++ "]"
     | none => "")

/-- The finalization errors of the backends: a graph-construction error
(duplicate identity, longest-path backend only) or a duration-unit
conversion overflow in the reported entries (both backends' `finish`). -/
inductive LpError where
  | duplicateKey (k : NodeKey)
  | durationOverflow
  deriving DecidableEq, Repr

/-- `duration.try_into()` to the proto duration type: fails when the
duration's whole-second count exceeds `i64::MAX` (the proto type carries
`i64` seconds, a std `Duration` carries `u64` seconds). -/
def durationToProto (duration : Nat) : Option Nat :=
  if duration / 1000000000 ≤ 9223372036854775807 then some duration else none

/-- `collect::<Result<Vec<_>, _>>()`: gather the results in order, aborting
with the first error encountered. -/
def collectResults {E A : Type} : List (Except E A) → Except E (List A)
  | [] => Except.ok []
  | x :: l =>
    match x with
    | Except.error e => Except.error e
    | Except.ok a =>
      match collectResults l with
      | Except.error e => Except.error e
      | Except.ok rest => Except.ok (a :: rest)

/-- The `CriticalPathEntry` built for one surviving path entry; the
`duration.try_into()?` inside it can fail, which the `?` propagates. -/
def mkCriticalPathEntry (name : String) (duration : Nat)
    (action : RegisteredAction) : Except LpError CriticalPathEntry :=
  match durationToProto duration with
  | none => Except.error LpError.durationOverflow
  | some proto =>
    Except.ok
      { action_name := name
        action_key := some action.key
        duration := some proto
        action_name_fields :=
          some (action.category, (action.identifier).getD "") }

/-- The `filter_map` in `DefaultBackend::finish`: drop entries without
metadata and entries whose per-node duration is zero, yielding the
`(name, duration, action)` triple the entry-building `map` consumes. -/
def finishFilter (e : NodeKey × Option RegisteredAction × Nat) :
    Option (String × Nat × RegisteredAction) :=
  match e.2.1 with
  | none => none
  | some action =>
    if e.2.2 = 0 then none else some (actionName action, e.2.2, action)

/-- `DefaultBackend::finish`: extract the critical path, drop the
metadata-less and zero-duration entries, build the proto entries — where
`duration.try_into()?` can fail and `collect::<Result<Vec<_>, _>>()?`
propagates the first such failure — and report them with the node/edge
counters. Fuel bounds the extraction walk as in `extract_critical_path`. -/
def DefaultBackend.finish (st : DefaultBackend) (fuel : Nat) :
    Option (Except LpError BuildInfo) :=
  (extract_critical_path st.predecessors fuel).map
    (fun path =>
      match collectResults ((path.filterMap finishFilter).map
          (fun e => mkCriticalPathEntry e.1 e.2.1 e.2.2)) with
      | Except.error e => Except.error e
      | Except.ok entries =>
        Except.ok
          { critical_path := entries
            num_nodes := st.num_nodes
            num_edges := st.num_edges })

/-- `ActionExecutionSignal`: an action completed with a duration. -/
structure ActionExecutionSignal where
  action : RegisteredAction
  duration : Nat
  deriving DecidableEq, Repr

/-- `ActionRedirectionSignal`: a provisional key superseded by `dest`. -/
structure ActionRedirectionSignal where
  key : ActionKey
  dest : ActionKey
  deriving DecidableEq, Repr

/-- `TransitiveSetComputationSignal`: a projection with its artifacts and
nested projections (the source's `HashSet`s become lists). -/
structure TransitiveSetComputationSignal where
  key : TransitiveSetProjectionKey
  artifacts : List ActionKey
  set_deps : List TransitiveSetProjectionKey
  deriving DecidableEq, Repr

/-- The `BuildSignal` union carried on the channel. -/
inductive BuildSignal where
  | actionExecution (sig : ActionExecutionSignal)
  | transitiveSetComputation (sig : TransitiveSetComputationSignal)
  | actionRedirection (sig : ActionRedirectionSignal)
  | buildFinished
  deriving DecidableEq, Repr

/-- `BuildSignalReceiver::process_action_redirection`: one `process_node`
call with key `from`, no metadata, zero duration, and the single dependency
key `dest` (`std::iter::once`). -/
def process_action_redirection (st : DefaultBackend)
    (redirection : ActionRedirectionSignal) : DefaultBackend :=
  st.process_node (NodeKey.actionKey redirection.key) none 0
    [NodeKey.actionKey redirection.dest]

/-- The state of the unbounded channel as seen by a sender: whether the
receiver has been dropped, and the queued signals. -/
structure Channel where
  closed : Bool
  queue : List BuildSignal
  deriving DecidableEq, Repr

/-- `tokio::sync::mpsc::error::SendError`: returned (with the rejected
value) when the receiver is gone. -/
structure SendError where
  rejected : BuildSignal
  deriving DecidableEq, Repr

/-- `UnboundedSender::send`: enqueue when the receiver is alive, otherwise
leave the queue unchanged and report a `SendError` to the caller. -/
def channelSend (ch : Channel) (sig : BuildSignal) :
    Channel × Except SendError Unit :=
  if ch.closed then (ch, Except.error ⟨sig⟩)
  else ({ ch with queue := ch.queue ++ [sig] }, Except.ok ())

/-- `BuildSignalSender::signal`: perform the send and discard its result
(`let _ignore_error = self.sender.send(..)`); the caller sees no error. -/
def signalSend (ch : Channel) (sig : BuildSignal) : Channel :=
  (channelSend ch sig).1

/-- The body of `scope`, sequentialized at its await points: run the
caller's work with the open channel, send exactly one `BuildFinished`
signal, then await the consumer (`handle.await??`) before returning the
work's result. `work` returns the channel as the producers left it
together with the work's own outcome; `consumer` is the receiver task's
result on the signals it saw. -/
def scope {E R : Type} (work : Channel → Channel × Except E R)
    (consumer : List BuildSignal → Except E Unit) :
    Except E R × List BuildSignal :=
  let wr := work { closed := false, queue := [] }
  let ch2 := signalSend wr.1 BuildSignal.buildFinished
  match consumer ch2.queue with
  | Except.error e => (Except.error e, ch2.queue)
  | Except.ok _ => (wr.2, ch2.queue)

/-- Vertex payload of the longest-path backend (`NodeData`). -/
structure NodeData where
  action : Option RegisteredAction
  duration : Nat
  deriving DecidableEq, Repr

/-- Modelled from the spec: the explicit-graph builder of the
`buck2_critical_path` crate (`GraphBuilder`), whose source is not part of
this slice. Per the spec it accumulates vertices with full dependency sets
and a payload, may reference not-yet-inserted keys (resolution happens at
finalization), and rejects a duplicate identity insertion. -/
structure GraphBuilderState where
  pushed : List (NodeKey × List NodeKey × NodeData)
  deriving Repr

/-- Modelled from the spec: `GraphBuilder::push` — appending a vertex with
its dependency keys fails when the identity was already inserted. -/
def graphPush (b : GraphBuilderState) (key : NodeKey) (deps : List NodeKey)
    (data : NodeData) : Except LpError GraphBuilderState :=
  if (b.pushed.map (fun v => v.1)).contains key then
    Except.error (LpError.duplicateKey key)
  else
    Except.ok { pushed := b.pushed ++ [(key, deps, data)] }

/-- `LongestPathGraphBackend`: a fallible builder; the first error poisons
it (`builder: anyhow::Result<GraphBuilder<..>>`). -/
structure LongestPathGraphBackend where
  builder : Except LpError GraphBuilderState

/-- `LongestPathGraphBackend::new`. -/
def LongestPathGraphBackend.new : LongestPathGraphBackend :=
  { builder := Except.ok { pushed := [] } }

/-- `LongestPathGraphBackend::process_node`: a no-op when the builder is
already poisoned; otherwise push, retaining any error for `finish`. -/
def LongestPathGraphBackend.process_node (st : LongestPathGraphBackend)
    (key : NodeKey) (action : Option RegisteredAction) (duration : Nat)
    (dep_keys : List NodeKey) : LongestPathGraphBackend :=
  match st.builder with
  | Except.error _ => st
  | Except.ok b =>
    match graphPush b key dep_keys ⟨action, duration⟩ with
    | Except.ok b2 => { builder := Except.ok b2 }
    | Except.error e => { builder := Except.error e }

/-- The duration of a vertex in microseconds (`d.duration.as_micros()`),
given the nanosecond model of `Duration`. -/
def vertexMicros (d : NodeData) : Nat := d.duration / 1000

/-- Modelled from the spec: the dependents ("successors") of a key are the
pushed vertices that list it among their dependency keys. -/
def dependentsOf (vs : List (NodeKey × List NodeKey × NodeData))
    (k : NodeKey) : List NodeKey :=
  (vs.filter (fun v => v.2.1.contains k)).map (fun v => v.1)

/-- The microsecond weight of a key among the pushed vertices (0 when the
key was never pushed, i.e. a dangling dependency reference). -/
def weightOf (vs : List (NodeKey × List NodeKey × NodeData)) (k : NodeKey) :
    Nat :=
  match vs.find? (fun v => v.1 = k) with
  | some v => vertexMicros v.2.2
  | none => 0

/-- Modelled from the spec: a vertex's potential is its own weight plus the
maximum potential among its dependents (0 when it has none); fuel bounds the
recursion by the vertex count, enough for any acyclic graph. -/
def potentialOf (vs : List (NodeKey × List NodeKey × NodeData)) :
    Nat → NodeKey → Nat
  | 0, k => weightOf vs k
  | fuel + 1, k =>
    weightOf vs k +
      ((dependentsOf vs k).map (potentialOf vs fuel)).foldl Nat.max 0

/-- Modelled from the spec: the critical path starts at the maximal-potential
source and repeatedly follows the dependent of highest potential. -/
def chainFrom (vs : List (NodeKey × List NodeKey × NodeData)) :
    Nat → NodeKey → List NodeKey
  | 0, k => [k]
  | fuel + 1, k =>
    match maxByKeyLast (potentialOf vs fuel) (dependentsOf vs k) with
    | none => [k]
    | some k2 => k :: chainFrom vs fuel k2

/-- Modelled from the spec: the source vertices — those none of whose
dependency keys resolve to a pushed vertex. -/
def sourceVertices (vs : List (NodeKey × List NodeKey × NodeData)) :
    List NodeKey :=
  (vs.filter
      (fun v => !(v.2.1.any (fun d => (vs.map (fun w => w.1)).contains d)))).map
    (fun v => v.1)

/-- Modelled from the spec: the critical path of the finalized graph as a
list of keys. -/
def criticalPathKeys (vs : List (NodeKey × List NodeKey × NodeData)) :
    List NodeKey :=
  match maxByKeyLast (potentialOf vs vs.length) (sourceVertices vs) with
  | none => []
  | some start => chainFrom vs vs.length start

/-- `LongestPathGraphBackend::finish`: propagate a retained construction
error; otherwise convert durations to microseconds (an over-`u64` value is
a reported error), compute the critical path and potentials, and report the
entries with metadata — each entry's `duration.try_into()?` can also fail,
propagated by the collecting `?` — plus the graph's vertex and edge counts.
The longest-path computation itself is modelled from the spec, its source
being outside this slice. -/
def LongestPathGraphBackend.finish (st : LongestPathGraphBackend) :
    Except LpError BuildInfo :=
  match st.builder with
  | Except.error e => Except.error e
  | Except.ok b =>
    if b.pushed.any (fun v => 18446744073709551616 ≤ vertexMicros v.2.2) then
      Except.error LpError.durationOverflow
    else
      match collectResults
          (((criticalPathKeys b.pushed).filterMap
              (fun k =>
                match b.pushed.find? (fun v => v.1 = k) with
                | none => none
                | some v =>
                  match v.2.2.action with
                  | none => none
                  | some action =>
                    some (actionName action, v.2.2.duration, action))).map
            (fun e => mkCriticalPathEntry e.1 e.2.1 e.2.2)) with
      | Except.error e => Except.error e
      | Except.ok entries =>
        Except.ok
          { critical_path := entries
            num_nodes := b.pushed.length
            num_edges := (b.pushed.map (fun v => v.2.1.length)).sum }

/-- The worked example of the spec and of the source's `long_path` test:
chain 1→2→3 with cumulative durations 5, 11, 18 and a sibling 4 with
`prev` 1 and cumulative duration 14. -/
def longChainMap : List (Nat × CriticalPathNode Nat Nat) :=
  [(1, ⟨5, some 1, none⟩), (2, ⟨11, some 2, some 1⟩),
   (3, ⟨18, some 3, some 2⟩), (4, ⟨14, some 4, some 1⟩)]

/-- The keys visited by the `extract_critical_path` walk, recorded even when
the fuel runs out (used to reason about the walk's termination: each step of
the source's `unfold` loop that does not stop visits one key of the map). -/
def cpVisited {K V : Type} [DecidableEq K]
    (m : List (K × CriticalPathNode K V)) :
    Option K → Nat → List K
  | none, _ => []
  | some _, 0 => []
  | some k, fuel + 1 =>
    match lookupA m k with
    | none => []
    | some nd => k :: cpVisited m nd.prev fuel

/-- The arguments of one `process_node` call on the streaming backend. -/
structure ProcessCall where
  key : NodeKey
  value : Option RegisteredAction
  duration : Nat
  dep_keys : List NodeKey

/-- A sequence of `process_node` calls applied to a streaming backend. -/
def runCalls (st : DefaultBackend) (calls : List ProcessCall) : DefaultBackend :=
  calls.foldl (fun s c => s.process_node c.key c.value c.duration c.dep_keys) st

end BuildListener

namespace BuildListener

/-! Helper lemmas about the list combinators that model the Rust iterator
operations. -/

theorem maxStep_foldl_mem {A : Type} (f : A → Nat) :
    ∀ (l : List A) (acc : Option A) (a : A),
      l.foldl (maxStep f) acc = some a → a ∈ l ∨ acc = some a := by
  intro l
  induction l with
  | nil => intro acc a h; right; exact h
  | cons x l ih =>
    intro acc a h
    simp only [List.foldl_cons] at h
    rcases ih (maxStep f acc x) a h with hm | he
    · exact Or.inl (List.mem_cons_of_mem _ hm)
    · cases acc with
      | none =>
        simp only [maxStep] at he
        exact Or.inl (by simp [← Option.some.inj he])
      | some b =>
        simp only [maxStep] at he
        by_cases hle : f b ≤ f x
        · rw [if_pos hle] at he
          exact Or.inl (by simp [← Option.some.inj he])
        · rw [if_neg hle] at he
          exact Or.inr he

theorem maxStep_foldl_le {A : Type} (f : A → Nat) :
    ∀ (l : List A) (acc : Option A) (a : A),
      l.foldl (maxStep f) acc = some a →
      (∀ x ∈ l, f x ≤ f a) ∧ (∀ b, acc = some b → f b ≤ f a) := by
  intro l
  induction l with
  | nil =>
    intro acc a h
    refine ⟨by simp, fun b hb => ?_⟩
    rw [hb] at h
    rw [Option.some.inj h]
  | cons x l ih =>
    intro acc a h
    simp only [List.foldl_cons] at h
    obtain ⟨h1, h2⟩ := ih (maxStep f acc x) a h
    have hx : f x ≤ f a := by
      cases acc with
      | none => exact h2 x rfl
      | some b =>
        simp only [maxStep] at h2
        by_cases hle : f b ≤ f x
        · exact h2 x (by rw [if_pos hle])
        · exact le_trans (le_of_lt (lt_of_not_le hle)) (h2 b (by rw [if_neg hle]))
    refine ⟨fun y hy => ?_, fun b hb => ?_⟩
    · rcases List.mem_cons.mp hy with rfl | hy
      · exact hx
      · exact h1 y hy
    · subst hb
      simp only [maxStep] at h2
      by_cases hle : f b ≤ f x
      · exact le_trans hle (h2 x (by rw [if_pos hle]))
      · exact h2 b (by rw [if_neg hle])

theorem maxStep_foldl_some {A : Type} (f : A → Nat) :
    ∀ (l : List A) (b : A), ∃ a, l.foldl (maxStep f) (some b) = some a := by
  intro l
  induction l with
  | nil => intro b; exact ⟨b, rfl⟩
  | cons x l ih =>
    intro b
    simp only [List.foldl_cons, maxStep]
    by_cases hle : f b ≤ f x
    · rw [if_pos hle]; exact ih x
    · rw [if_neg hle]; exact ih b

theorem maxByKeyLast_mem {A : Type} (f : A → Nat) (l : List A) (a : A)
    (h : maxByKeyLast f l = some a) : a ∈ l := by
  rcases maxStep_foldl_mem f l none a h with hm | he
  · exact hm
  · cases he

theorem maxByKeyLast_isMax {A : Type} (f : A → Nat) (l : List A) (a : A)
    (h : maxByKeyLast f l = some a) : ∀ x ∈ l, f x ≤ f a :=
  (maxStep_foldl_le f l none a h).1

theorem maxByKeyLast_ne_nil {A : Type} (f : A → Nat) (x : A) (l : List A) :
    ∃ a, maxByKeyLast f (x :: l) = some a := by
  unfold maxByKeyLast
  simp only [List.foldl_cons, maxStep]
  exact maxStep_foldl_some f l x

theorem maxByKeyLast_append_last {A : Type} (f : A → Nat) (l : List A) (x : A)
    (h : ∀ y ∈ l, f y ≤ f x) : maxByKeyLast f (l ++ [x]) = some x := by
  unfold maxByKeyLast
  rw [List.foldl_append]
  simp only [List.foldl_cons, List.foldl_nil]
  cases hfold : l.foldl (maxStep f) none with
  | none => rfl
  | some b =>
    have hb : b ∈ l := by
      rcases maxStep_foldl_mem f l none b hfold with hm | he
      · exact hm
      · cases he
    simp only [maxStep]
    rw [if_pos (h b hb)]

theorem find?_map_overwrite {K V : Type} [DecidableEq K]
    (m : List (K × V)) (k : K) (v : V)
    (h : ∃ p ∈ m, p.1 = k) :
    (m.map (fun p => if p.1 = k then (k, v) else p)).find?
        (fun p => p.1 = k) = some (k, v) := by
  induction m with
  | nil => simp at h
  | cons p l ih =>
    simp only [List.map_cons]
    by_cases hp : p.1 = k
    · rw [if_pos hp]
      rw [List.find?_cons_of_pos _ (by simp)]
    · rw [if_neg hp]
      rw [List.find?_cons_of_neg _ (by simpa using hp)]
      apply ih
      rcases h with ⟨q, hq, hqk⟩
      rcases List.mem_cons.mp hq with rfl | hq
      · exact absurd hqk hp
      · exact ⟨q, hq, hqk⟩

theorem find?_map_overwrite_ne {K V : Type} [DecidableEq K]
    (m : List (K × V)) (k k2 : K) (v : V) (h : k2 ≠ k) :
    (m.map (fun p => if p.1 = k then (k, v) else p)).find?
        (fun p => p.1 = k2) = m.find? (fun p => p.1 = k2) := by
  induction m with
  | nil => rfl
  | cons p l ih =>
    simp only [List.map_cons]
    by_cases hp : p.1 = k
    · rw [if_pos hp]
      rw [List.find?_cons_of_neg _ (by simpa using fun he => h he.symm)]
      rw [List.find?_cons_of_neg _ (by
        simp only [decide_eq_true_eq]
        rw [hp]
        exact fun he => h he.symm)]
      exact ih
    · rw [if_neg hp]
      by_cases hp2 : p.1 = k2
      · rw [List.find?_cons_of_pos _ (by simpa using hp2),
          List.find?_cons_of_pos _ (by simpa using hp2)]
      · rw [List.find?_cons_of_neg _ (by simpa using hp2),
          List.find?_cons_of_neg _ (by simpa using hp2)]
        exact ih

theorem find?_append_of_none {A : Type} (p : A → Bool) (l l2 : List A)
    (h : l.find? p = none) : (l ++ l2).find? p = l2.find? p := by
  induction l with
  | nil => rfl
  | cons x l ih =>
    rw [List.find?_cons] at h
    cases hx : p x with
    | true => rw [hx] at h; cases h
    | false =>
      rw [hx] at h
      rw [List.cons_append, List.find?_cons, hx]
      exact ih h

theorem lookupA_insertA_self {K V : Type} [DecidableEq K]
    (m : List (K × V)) (k : K) (v : V) :
    lookupA (insertA m k v) k = some v := by
  unfold insertA lookupA
  by_cases hany : ∃ p ∈ m, p.1 = k
  · rw [if_pos (by simpa [List.any_eq_true] using hany)]
    rw [find?_map_overwrite m k v hany]
    rfl
  · rw [if_neg (by simpa [List.any_eq_true] using hany)]
    rw [find?_append_of_none _ m _ (List.find?_eq_none.mpr (by
      intro a ha
      simp only [decide_eq_true_eq]
      exact fun hak => hany ⟨a, ha, hak⟩))]
    rw [List.find?_cons_of_pos _ (by simp)]
    rfl

theorem lookupA_insertA_ne {K V : Type} [DecidableEq K]
    (m : List (K × V)) (k k2 : K) (v : V) (h : k2 ≠ k) :
    lookupA (insertA m k v) k2 = lookupA m k2 := by
  unfold insertA lookupA
  by_cases hany : m.any (fun p => p.1 = k)
  · rw [if_pos hany]
    rw [find?_map_overwrite_ne m k k2 v h]
  · rw [if_neg hany]
    cases hfind : m.find? (fun p => p.1 = k2) with
    | some a => rw [List.find?_append, hfind]; rfl
    | none =>
      rw [find?_append_of_none _ m _ hfind]
      rw [List.find?_cons_of_neg _ (by simpa using fun he => h he.symm)]
      rfl

end BuildListener

namespace BuildListener

/-- C4: once the longest-path backend's builder holds an error, the backend
is poisoned — every subsequent `process_node` call is a no-op leaving the
state unchanged (and, being a total function, cannot panic), and the
retained error is only surfaced when `finish` is called, which returns it. -/
theorem lpgb_poisoned_noop_and_deferred_error
    (st : LongestPathGraphBackend) (e : LpError)
    (h : st.builder = Except.error e) (key : NodeKey)
    (action : Option RegisteredAction) (duration : Nat)
    (dep_keys : List NodeKey) :
    st.process_node key action duration dep_keys = st ∧
    st.finish = Except.error e := by
  constructor
  · simp [LongestPathGraphBackend.process_node, h]
  · simp [LongestPathGraphBackend.finish, h]

/-- Witness for C4 at a concrete poisoned backend. -/
theorem lpgb_poisoned_noop_and_deferred_error_witness :
    (LongestPathGraphBackend.mk
        (Except.error (LpError.duplicateKey (NodeKey.actionKey ⟨0⟩)))).process_node
        (NodeKey.actionKey ⟨1⟩) none 5 [NodeKey.actionKey ⟨0⟩] =
      LongestPathGraphBackend.mk
        (Except.error (LpError.duplicateKey (NodeKey.actionKey ⟨0⟩))) ∧
    (LongestPathGraphBackend.mk
        (Except.error (LpError.duplicateKey (NodeKey.actionKey ⟨0⟩)))).finish =
      Except.error (LpError.duplicateKey (NodeKey.actionKey ⟨0⟩)) :=
  lpgb_poisoned_noop_and_deferred_error _ _ rfl _ _ _ _

/-- C6: inserting an already-present identity into the longest-path backend
poisons it with a `duplicateKey` error, and `finish` then returns exactly
that error rather than crashing; since `finish` is a pure function of the
state, any repetition of the call returns the same error (stated as the
pair of both calls). -/
theorem lpgb_duplicate_finish_error (b : GraphBuilderState) (key : NodeKey)
    (action : Option RegisteredAction) (duration : Nat) (dep_keys : List NodeKey)
    (hdup : (b.pushed.map (fun v => v.1)).contains key = true) :
    ((LongestPathGraphBackend.mk (Except.ok b)).process_node key action duration
        dep_keys).builder = Except.error (LpError.duplicateKey key) ∧
    (((LongestPathGraphBackend.mk (Except.ok b)).process_node key action duration
          dep_keys).finish,
      ((LongestPathGraphBackend.mk (Except.ok b)).process_node key action duration
          dep_keys).finish) =
      (Except.error (LpError.duplicateKey key),
        Except.error (LpError.duplicateKey key)) := by
  have hpoison : ((LongestPathGraphBackend.mk (Except.ok b)).process_node key
      action duration dep_keys).builder = Except.error (LpError.duplicateKey key) := by
    simp only [LongestPathGraphBackend.process_node, graphPush]
    rw [if_pos hdup]
  have hfin : ((LongestPathGraphBackend.mk (Except.ok b)).process_node key
      action duration dep_keys).finish = Except.error (LpError.duplicateKey key) := by
    simp [LongestPathGraphBackend.finish, hpoison]
  exact ⟨hpoison, by rw [hfin]⟩

/-- Witness for C6 at a concrete one-vertex builder and its duplicate. -/
theorem lpgb_duplicate_finish_error_witness :
    ((LongestPathGraphBackend.mk
        (Except.ok ⟨[(NodeKey.actionKey ⟨0⟩, [], ⟨none, 3⟩)]⟩)).process_node
        (NodeKey.actionKey ⟨0⟩) none 7 []).builder =
      Except.error (LpError.duplicateKey (NodeKey.actionKey ⟨0⟩)) ∧
    (((LongestPathGraphBackend.mk
          (Except.ok ⟨[(NodeKey.actionKey ⟨0⟩, [], ⟨none, 3⟩)]⟩)).process_node
          (NodeKey.actionKey ⟨0⟩) none 7 []).finish,
      ((LongestPathGraphBackend.mk
          (Except.ok ⟨[(NodeKey.actionKey ⟨0⟩, [], ⟨none, 3⟩)]⟩)).process_node
          (NodeKey.actionKey ⟨0⟩) none 7 []).finish) =
      (Except.error (LpError.duplicateKey (NodeKey.actionKey ⟨0⟩)),
        Except.error (LpError.duplicateKey (NodeKey.actionKey ⟨0⟩))) :=
  lpgb_duplicate_finish_error _ _ _ _ _ (by decide)

/-- C7: a `Redirected{from, to}` signal is dispatched as exactly one
`process_node` call with key `from`, no metadata, zero duration and the
single dependency key `to`; hence when `to` has a record, `from`'s new
record carries `to`'s cumulative duration unchanged (a zero-cost hop) and
links back to `to`. -/
theorem redirection_zero_cost_hop (st : DefaultBackend)
    (r : ActionRedirectionSignal) :
    process_action_redirection st r =
      st.process_node (NodeKey.actionKey r.key) none 0
        [NodeKey.actionKey r.dest] ∧
    (∀ nd, lookupA st.predecessors (NodeKey.actionKey r.dest) = some nd →
      lookupA (process_action_redirection st r).predecessors
          (NodeKey.actionKey r.key) =
        some ⟨nd.duration, none, some (NodeKey.actionKey r.dest)⟩) := by
  refine ⟨rfl, fun nd hnd => ?_⟩
  have hrec : recordedDeps st.predecessors [NodeKey.actionKey r.dest] =
      [(NodeKey.actionKey r.dest, nd)] := by
    simp [recordedDeps, uniqueList, uniqueAux, hnd]
  simp [process_action_redirection, DefaultBackend.process_node,
    processNodeRecord, hrec, maxByKeyLast, maxStep, lookupA_insertA_self]

/-- Witness for C7: a concrete redirection onto a recorded destination. -/
theorem redirection_zero_cost_hop_witness :
    lookupA (process_action_redirection
        ⟨[(NodeKey.actionKey ⟨2⟩, ⟨7, none, none⟩)], 1, 0⟩
        ⟨⟨1⟩, ⟨2⟩⟩).predecessors (NodeKey.actionKey ⟨1⟩) =
      some ⟨7, none, some (NodeKey.actionKey ⟨2⟩)⟩ :=
  (redirection_zero_cost_hop _ _).2 ⟨7, none, none⟩ (by decide)

/-- C8: the sender's `signal` operation never reports failure: on a closed
channel the underlying `send` returns an error which `signal` swallows,
leaving the channel unchanged (a no-op); on an open channel the signal is
enqueued and `send` succeeds. -/
theorem signal_never_fails (ch : Channel) (sig : BuildSignal) :
    (ch.closed = true →
      signalSend ch sig = ch ∧ (channelSend ch sig).2 = Except.error ⟨sig⟩) ∧
    (ch.closed = false →
      (signalSend ch sig).queue = ch.queue ++ [sig] ∧
      (channelSend ch sig).2 = Except.ok ()) := by
  constructor
  · intro h
    constructor <;> simp [signalSend, channelSend, h]
  · intro h
    constructor <;> simp [signalSend, channelSend, h]

/-- Witness for C8 on a concrete closed and a concrete open channel. -/
theorem signal_never_fails_witness :
    signalSend ⟨true, []⟩ BuildSignal.buildFinished = ⟨true, []⟩ ∧
    (signalSend ⟨false, []⟩ BuildSignal.buildFinished).queue =
      [] ++ [BuildSignal.buildFinished] :=
  ⟨((signal_never_fails ⟨true, []⟩ BuildSignal.buildFinished).1 rfl).1,
    ((signal_never_fails ⟨false, []⟩ BuildSignal.buildFinished).2 rfl).1⟩

/-- C3 as stated is false: when the work and the consumer both fail,
`scope` returns the consumer's error (`handle.await??` precedes returning
`result`), so the work's error is not propagated unchanged independently of
the consumer. -/
theorem scope_work_error_not_propagated :
    (scope (fun ch => (ch, Except.error (1 : Nat)))
        (fun _ => Except.error (2 : Nat)) :
        Except Nat Unit × List BuildSignal).1 = Except.error 2 ∧
    (Except.error (2 : Nat) : Except Nat Unit) ≠ Except.error 1 := by
  constructor
  · rfl
  · intro hcontra
    exact absurd (Except.error.inj hcontra) (by decide)

/-- C3 (amended): for every outcome of the work, `scope` sends exactly one
`Finished` signal through the sender after the work and consults the
consumer's result before returning; a consumer error becomes the overall
result (taking precedence over the work's own error), and when the consumer
succeeds the work's outcome — success or error — is returned unchanged. -/
theorem scope_contract {E R : Type} (work : Channel → Channel × Except E R)
    (consumer : List BuildSignal → Except E Unit) :
    (scope work consumer).2 =
      (signalSend (work ⟨false, []⟩).1 BuildSignal.buildFinished).queue ∧
    ((work ⟨false, []⟩).1.closed = false →
      (scope work consumer).2 =
        (work ⟨false, []⟩).1.queue ++ [BuildSignal.buildFinished]) ∧
    (∀ e, consumer (scope work consumer).2 = Except.error e →
      (scope work consumer).1 = Except.error e) ∧
    (consumer (scope work consumer).2 = Except.ok () →
      (scope work consumer).1 = (work ⟨false, []⟩).2) := by
  have hq : (scope work consumer).2 =
      (signalSend (work ⟨false, []⟩).1 BuildSignal.buildFinished).queue := by
    dsimp only [scope]
    split <;> rfl
  refine ⟨hq, ?_, ?_, ?_⟩
  · intro h
    rw [hq]
    simp [signalSend, channelSend, h]
  · intro e he
    rw [hq] at he
    dsimp only [scope]
    split
    next e2 heq =>
      have he2 : e2 = e := Except.error.inj (heq.symm.trans he)
      rw [he2]
    next u heq => exact Except.noConfusion (heq.symm.trans he)
  · intro hok
    rw [hq] at hok
    dsimp only [scope]
    split
    next e2 heq => exact Except.noConfusion (heq.symm.trans hok)
    next u heq => rfl

/-- Witness for C3 (amended) at a concrete successful work and consumer. -/
theorem scope_contract_witness :
    (scope (fun ch => (ch, Except.ok (42 : Nat)))
        (fun _ => Except.ok ()) : Except Unit Nat × List BuildSignal).1 =
      Except.ok 42 ∧
    (scope (fun ch => (ch, Except.ok (42 : Nat)))
        (fun _ => (Except.ok () : Except Unit Unit))).2 =
      [BuildSignal.buildFinished] := by
  exact ⟨(scope_contract _ _).2.2.2 rfl, ((scope_contract _ _).2.1 rfl).trans rfl⟩

end BuildListener

namespace BuildListener

theorem uniqueAux_filter {A : Type} [DecidableEq A] (p : A → Bool) :
    ∀ (l s1 s2 : List A),
      (∀ a, p a = true → (a ∈ s1 ↔ a ∈ s2)) →
      uniqueAux s1 (l.filter p) = (uniqueAux s2 l).filter p := by
  intro l
  induction l with
  | nil => intro s1 s2 hs; rfl
  | cons a l ih =>
    intro s1 s2 hs
    cases hpa : p a with
    | true =>
      rw [List.filter_cons_of_pos hpa]
      simp only [uniqueAux]
      by_cases hmem : a ∈ s1
      · rw [if_pos hmem, if_pos ((hs a hpa).mp hmem)]
        exact ih s1 s2 hs
      · rw [if_neg hmem, if_neg (fun h2 => hmem ((hs a hpa).mpr h2))]
        rw [List.filter_cons_of_pos hpa]
        rw [ih (a :: s1) (a :: s2) (by
          intro b hb
          simp only [List.mem_cons]
          rw [hs b hb])]
    | false =>
      rw [List.filter_cons_of_neg (by simp [hpa])]
      simp only [uniqueAux]
      by_cases hmem : a ∈ s2
      · rw [if_pos hmem]
        exact ih s1 s2 hs
      · rw [if_neg hmem]
        rw [List.filter_cons_of_neg (by simp [hpa])]
        exact ih s1 (a :: s2) (by
          intro b hb
          simp only [List.mem_cons]
          rw [hs b hb]
          constructor
          · exact Or.inr
          · rintro (rfl | h2)
            · rw [hpa] at hb; cases hb
            · exact h2)

theorem filterMap_filter_eq {A B : Type} (p : A → Bool) (g : A → Option B)
    (hg : ∀ a, p a = false → g a = none) :
    ∀ l : List A, (l.filter p).filterMap g = l.filterMap g := by
  intro l
  induction l with
  | nil => rfl
  | cons a l ih =>
    cases hpa : p a with
    | true =>
      rw [List.filter_cons_of_pos hpa]
      rw [List.filterMap_cons, List.filterMap_cons, ih]
    | false =>
      rw [List.filter_cons_of_neg (by simp [hpa])]
      rw [List.filterMap_cons, hg a hpa]
      exact ih

theorem recordedDeps_filter
    (m : List (NodeKey × CriticalPathNode NodeKey RegisteredAction))
    (dep_keys : List NodeKey) :
    recordedDeps m (dep_keys.filter (fun k => (lookupA m k).isSome)) =
      recordedDeps m dep_keys := by
  unfold recordedDeps uniqueList
  rw [uniqueAux_filter _ dep_keys [] [] (by intro a _; rfl)]
  exact filterMap_filter_eq _ _ (by
    intro a ha
    cases hl : lookupA m a with
    | none => rfl
    | some nd => rw [hl] at ha; cases ha) _

theorem processNodeRecord_filter
    (m : List (NodeKey × CriticalPathNode NodeKey RegisteredAction))
    (value : Option RegisteredAction) (duration : Nat)
    (dep_keys : List NodeKey) :
    processNodeRecord m value duration
        (dep_keys.filter (fun k => (lookupA m k).isSome)) =
      processNodeRecord m value duration dep_keys := by
  unfold processNodeRecord
  rw [recordedDeps_filter]

/-- C1: `process_node` overwrites the key's record with one whose cumulative
duration is the chosen predecessor's plus the node's own duration — the
chosen predecessor being a recorded, deduplicated dependency of maximal
cumulative duration, ties resolved in favour of the last-seen — or the own
duration alone with no predecessor when no dependency key is recorded;
other keys are untouched, and unrecorded dependency keys are silently
ignored: filtering them out leaves the resulting predecessor map unchanged
(never an error — the model is a total function). -/
theorem process_node_spec (st : DefaultBackend) (key : NodeKey)
    (value : Option RegisteredAction) (duration : Nat) (dep_keys : List NodeKey) :
    lookupA (st.process_node key value duration dep_keys).predecessors key =
      some (processNodeRecord st.predecessors value duration dep_keys) ∧
    (∀ k, k ≠ key →
      lookupA (st.process_node key value duration dep_keys).predecessors k =
        lookupA st.predecessors k) ∧
    (recordedDeps st.predecessors dep_keys = [] →
      processNodeRecord st.predecessors value duration dep_keys =
        ⟨duration, value, none⟩) ∧
    (∀ q, maxByKeyLast (fun d => d.2.duration)
        (recordedDeps st.predecessors dep_keys) = some q →
      q ∈ recordedDeps st.predecessors dep_keys ∧
      (∀ p ∈ recordedDeps st.predecessors dep_keys,
        p.2.duration ≤ q.2.duration) ∧
      processNodeRecord st.predecessors value duration dep_keys =
        ⟨q.2.duration + duration, value, some q.1⟩) ∧
    (∀ (l : List (NodeKey × CriticalPathNode NodeKey RegisteredAction)) x,
      (∀ y ∈ l, y.2.duration ≤ x.2.duration) →
      maxByKeyLast (fun d => d.2.duration) (l ++ [x]) = some x) ∧
    (st.process_node key value duration dep_keys).predecessors =
      (st.process_node key value duration
        (dep_keys.filter (fun k => (lookupA st.predecessors k).isSome))).predecessors := by
  refine ⟨?_, ?_, ?_, ?_, ?_, ?_⟩
  · exact lookupA_insertA_self st.predecessors key _
  · exact fun k hk => lookupA_insertA_ne st.predecessors key k _ hk
  · intro h
    unfold processNodeRecord
    rw [h]
    rfl
  · intro q hq
    obtain ⟨qk, qd⟩ := q
    refine ⟨maxByKeyLast_mem _ _ _ hq, maxByKeyLast_isMax _ _ _ hq, ?_⟩
    unfold processNodeRecord
    rw [hq]
  · exact fun l x h => maxByKeyLast_append_last _ l x h
  · simp only [DefaultBackend.process_node]
    rw [processNodeRecord_filter]

/-- Witness for C1: two recorded dependencies tie at cumulative duration 5;
the last-seen (key 2) is chosen and the new record is `5 + 3` long. -/
theorem process_node_spec_witness :
    lookupA
        (DefaultBackend.process_node
          ⟨[(NodeKey.actionKey ⟨1⟩, ⟨5, none, none⟩),
            (NodeKey.actionKey ⟨2⟩, ⟨5, none, none⟩)], 2, 0⟩
          (NodeKey.actionKey ⟨3⟩) none 3
          [NodeKey.actionKey ⟨1⟩, NodeKey.actionKey ⟨2⟩]).predecessors
        (NodeKey.actionKey ⟨3⟩) =
      some ⟨8, none, some (NodeKey.actionKey ⟨2⟩)⟩ := by
  have h := (process_node_spec
    ⟨[(NodeKey.actionKey ⟨1⟩, ⟨5, none, none⟩),
      (NodeKey.actionKey ⟨2⟩, ⟨5, none, none⟩)], 2, 0⟩
    (NodeKey.actionKey ⟨3⟩) none 3
    [NodeKey.actionKey ⟨1⟩, NodeKey.actionKey ⟨2⟩]).1
  rw [h]
  have h2 := ((process_node_spec
    ⟨[(NodeKey.actionKey ⟨1⟩, ⟨5, none, none⟩),
      (NodeKey.actionKey ⟨2⟩, ⟨5, none, none⟩)], 2, 0⟩
    (NodeKey.actionKey ⟨3⟩) none 3
    [NodeKey.actionKey ⟨1⟩, NodeKey.actionKey ⟨2⟩]).2.2.2.1
    (NodeKey.actionKey ⟨2⟩, ⟨5, none, none⟩) (by decide)).2.2
  rw [h2]

/-- C2: extraction of the empty map is the empty list (for every fuel); on
the spec's worked example — chain 1→2→3 of cumulative durations 5, 11, 18
with sibling 4 (prev 1, cumulative 14) — the result is
`[(1,5),(2,6),(3,7)]` and node 4 appears nowhere in it; in general the
terminal picked by the extraction is an entry of maximal cumulative
duration in the map. -/
theorem extract_critical_path_spec {K V : Type} [DecidableEq K] :
    (∀ fuel,
      extract_critical_path ([] : List (Nat × CriticalPathNode Nat Nat)) fuel =
        some []) ∧
    extract_critical_path longChainMap 5 =
      some [(1, some 1, 5), (2, some 2, 6), (3, some 3, 7)] ∧
    ((extract_critical_path longChainMap 5).getD []).all
        (fun e => e.1 ≠ 4) = true ∧
    (∀ (m : List (K × CriticalPathNode K V)) (q : K × CriticalPathNode K V),
      maxByKeyLast (fun p => p.2.duration) m = some q →
      q ∈ m ∧ (∀ p ∈ m, p.2.duration ≤ q.2.duration) ∧
        terminalKey m = some q.1) := by
  refine ⟨fun fuel => by cases fuel <;> rfl, by decide, by decide, ?_⟩
  intro m q hq
  refine ⟨maxByKeyLast_mem _ _ _ hq, maxByKeyLast_isMax _ _ _ hq, ?_⟩
  simp [terminalKey, hq]

/-- Witness for C2: the worked example, and the terminal-is-max conjunct
applied at the concrete map (node 3, cumulative 18, is the terminal). -/
theorem extract_critical_path_spec_witness :
    extract_critical_path longChainMap 5 =
      some [(1, some 1, 5), (2, some 2, 6), (3, some 3, 7)] ∧
    terminalKey longChainMap = some 3 := by
  refine ⟨(extract_critical_path_spec (K := Nat) (V := Nat)).2.1, ?_⟩
  exact ((extract_critical_path_spec (K := Nat) (V := Nat)).2.2.2 longChainMap
    (3, ⟨18, some 3, some 2⟩) (by decide)).2.2

end BuildListener

namespace BuildListener

theorem collectResults_mem {E A : Type} :
    ∀ (l : List (Except E A)) (out : List A),
      collectResults l = Except.ok out → ∀ b ∈ out, Except.ok b ∈ l := by
  intro l
  induction l with
  | nil =>
    intro out h b hb
    obtain rfl := Except.ok.inj h
    exact absurd hb (List.not_mem_nil b)
  | cons x l ih =>
    intro out h b hb
    cases x with
    | error e =>
      simp only [collectResults] at h
      exact Except.noConfusion h
    | ok a =>
      cases hc : collectResults l with
      | error e =>
        simp only [collectResults, hc] at h
        exact Except.noConfusion h
      | ok rest =>
        simp only [collectResults, hc] at h
        obtain rfl := Except.ok.inj h
        rcases List.mem_cons.mp hb with rfl | hb2
        · exact List.mem_cons_self _ _
        · exact List.mem_cons_of_mem _ (ih rest hc b hb2)

theorem finishFilter_some (x : NodeKey × Option RegisteredAction × Nat)
    (y : String × Nat × RegisteredAction) (h : finishFilter x = some y) :
    y.2.1 = x.2.2 ∧ x.2.2 ≠ 0 := by
  obtain ⟨k, ma, d⟩ := x
  cases ma with
  | none => simp [finishFilter] at h
  | some a =>
    simp only [finishFilter] at h
    by_cases hd : d = 0
    · rw [if_pos hd] at h
      cases h
    · rw [if_neg hd] at h
      obtain rfl := Option.some.inj h
      exact ⟨rfl, hd⟩

theorem mkCriticalPathEntry_ok_duration (name : String) (duration : Nat)
    (action : RegisteredAction) (e : CriticalPathEntry)
    (h : mkCriticalPathEntry name duration action = Except.ok e) :
    e.duration = some duration := by
  unfold mkCriticalPathEntry durationToProto at h
  by_cases hle : duration / 1000000000 ≤ 9223372036854775807
  · rw [if_pos hle] at h
    obtain rfl := Except.ok.inj h
    rfl
  · rw [if_neg hle] at h
    exact Except.noConfusion h

/-- C5: whenever extraction yields a path and every surviving entry's
duration converts to the proto type, `DefaultBackend.finish` reports that
path filtered by `finishFilter` — which drops exactly the entries with
absent metadata or zero computed duration — while the reported node and
edge totals are the backend's counters, unaffected by the filtering; a
`duration.try_into()?` failure is instead propagated as the finish error;
and no successfully reported entry carries a zero duration. -/
theorem default_finish_filters (st : DefaultBackend) (fuel : Nat)
    (path : List (NodeKey × Option RegisteredAction × Nat))
    (h : extract_critical_path st.predecessors fuel = some path) :
    (∀ entries,
      collectResults ((path.filterMap finishFilter).map
          (fun e => mkCriticalPathEntry e.1 e.2.1 e.2.2)) = Except.ok entries →
      st.finish fuel =
        some (Except.ok
          { critical_path := entries
            num_nodes := st.num_nodes
            num_edges := st.num_edges })) ∧
    (∀ e0,
      collectResults ((path.filterMap finishFilter).map
          (fun e => mkCriticalPathEntry e.1 e.2.1 e.2.2)) = Except.error e0 →
      st.finish fuel = some (Except.error e0)) ∧
    (∀ x : NodeKey × Option RegisteredAction × Nat,
      (x.2.1 = none ∨ x.2.2 = 0) → finishFilter x = none) ∧
    (∀ bi, st.finish fuel = some (Except.ok bi) →
      bi.num_nodes = st.num_nodes ∧ bi.num_edges = st.num_edges ∧
      ∀ e ∈ bi.critical_path, e.duration ≠ some 0) := by
  refine ⟨?_, ?_, ?_, ?_⟩
  · intro entries hent
    simp [DefaultBackend.finish, h, hent]
  · intro e0 herr
    simp [DefaultBackend.finish, h, herr]
  · rintro ⟨k, ma, d⟩ hx
    rcases hx with h1 | h2
    · simp only at h1
      simp [finishFilter, h1]
    · simp only at h2
      subst h2
      cases ma with
      | none => rfl
      | some a => simp [finishFilter]
  · intro bi hbi
    cases hc : collectResults ((path.filterMap finishFilter).map
        (fun e => mkCriticalPathEntry e.1 e.2.1 e.2.2)) with
    | error e0 =>
      simp [DefaultBackend.finish, h, hc] at hbi
    | ok entries =>
      have hrec : ({ critical_path := entries
                     num_nodes := st.num_nodes
                     num_edges := st.num_edges } : BuildInfo) = bi := by
        simpa [DefaultBackend.finish, h, hc] using hbi
      subst hrec
      refine ⟨rfl, rfl, ?_⟩
      intro e he
      have hok : Except.ok e ∈ (path.filterMap finishFilter).map
          (fun q => mkCriticalPathEntry q.1 q.2.1 q.2.2) :=
        collectResults_mem _ entries hc e he
      obtain ⟨q, hqmem, hqe⟩ := List.mem_map.mp hok
      obtain ⟨orig, _horig, hfq⟩ := List.mem_filterMap.mp hqmem
      obtain ⟨hdur_eq, hne⟩ := finishFilter_some orig q hfq
      have hd := mkCriticalPathEntry_ok_duration q.1 q.2.1 q.2.2 e hqe
      rw [hd, hdur_eq]
      intro hcontra
      exact hne (Option.some.inj hcontra)

/-- Witness for C5: a map whose extraction yields one real entry and one
synthetic zero-duration, metadata-less entry; the latter is dropped from
the report, the real entry's duration converts, and the totals still read
the counters (2 nodes, 1 edge). -/
theorem default_finish_filters_witness :
    DefaultBackend.finish
        ⟨[(NodeKey.actionKey ⟨1⟩, ⟨5, some ⟨⟨1⟩, "o", "c", none⟩, none⟩),
          (NodeKey.actionKey ⟨2⟩, ⟨5, none, some (NodeKey.actionKey ⟨1⟩)⟩)],
          2, 1⟩ 3 =
      some (Except.ok
        { critical_path := [{ action_name := "o c"
                              action_key := some ⟨1⟩
                              duration := some 5
                              action_name_fields := some ("c", "") }]
          num_nodes := 2
          num_edges := 1 }) :=
  (default_finish_filters
    ⟨[(NodeKey.actionKey ⟨1⟩, ⟨5, some ⟨⟨1⟩, "o", "c", none⟩, none⟩),
      (NodeKey.actionKey ⟨2⟩, ⟨5, none, some (NodeKey.actionKey ⟨1⟩)⟩)],
      2, 1⟩ 3
    [(NodeKey.actionKey ⟨1⟩, some ⟨⟨1⟩, "o", "c", none⟩, 5),
     (NodeKey.actionKey ⟨2⟩, none, 0)]
    (by decide)).1
    [{ action_name := "o c"
       action_key := some ⟨1⟩
       duration := some 5
       action_name_fields := some ("c", "") }]
    rfl

theorem runCalls_counters (calls : List ProcessCall) :
    ∀ st : DefaultBackend,
      (runCalls st calls).num_nodes = st.num_nodes + calls.length ∧
      (runCalls st calls).num_edges =
        st.num_edges +
          (calls.map (fun c => (uniqueList c.dep_keys).length)).sum := by
  induction calls with
  | nil => intro st; simp [runCalls]
  | cons c cs ih =>
    intro st
    obtain ⟨h1, h2⟩ := ih (st.process_node c.key c.value c.duration c.dep_keys)
    have hn : (st.process_node c.key c.value c.duration c.dep_keys).num_nodes =
        st.num_nodes + 1 := rfl
    have he : (st.process_node c.key c.value c.duration c.dep_keys).num_edges =
        st.num_edges + (uniqueList c.dep_keys).length := rfl
    constructor
    · show (runCalls (st.process_node c.key c.value c.duration c.dep_keys) cs).num_nodes = _
      rw [h1, hn, List.length_cons]
      omega
    · show (runCalls (st.process_node c.key c.value c.duration c.dep_keys) cs).num_edges = _
      rw [h2, he, List.map_cons, List.sum_cons]
      omega

/-- C9: starting from a fresh streaming backend, `num_nodes` counts the
`process_node` calls — a re-inserted key is counted again even though it
occupies a single map entry, so the total can exceed the number of distinct
keys — and `num_edges` counts every call's deduplicated dependency keys,
whether or not they have a record in the predecessor map. -/
theorem counters_count_calls (calls : List ProcessCall) :
    (runCalls DefaultBackend.new calls).num_nodes = calls.length ∧
    (runCalls DefaultBackend.new calls).num_edges =
      (calls.map (fun c => (uniqueList c.dep_keys).length)).sum ∧
    (∀ c : ProcessCall,
      (runCalls DefaultBackend.new [c, c]).num_nodes = 2 ∧
      ∀ k, k ≠ c.key →
        lookupA (runCalls DefaultBackend.new [c, c]).predecessors k = none) := by
  refine ⟨?_, ?_, fun c => ⟨?_, fun k hk => ?_⟩⟩
  · simpa [DefaultBackend.new] using (runCalls_counters calls DefaultBackend.new).1
  · simpa [DefaultBackend.new] using (runCalls_counters calls DefaultBackend.new).2
  · simpa [DefaultBackend.new] using (runCalls_counters [c, c] DefaultBackend.new).1
  · exact (lookupA_insertA_ne _ c.key k _ hk).trans
      ((lookupA_insertA_ne DefaultBackend.new.predecessors c.key k
        (processNodeRecord DefaultBackend.new.predecessors c.value c.duration
          c.dep_keys) hk).trans rfl)

/-- Witness for C9: two calls inserting the same key with one duplicated
dependency key each — two nodes and two edges are counted, while only the
inserted key is present in the map. -/
theorem counters_count_calls_witness :
    (runCalls DefaultBackend.new
        [⟨NodeKey.actionKey ⟨1⟩, none, 4,
          [NodeKey.actionKey ⟨9⟩, NodeKey.actionKey ⟨9⟩]⟩,
         ⟨NodeKey.actionKey ⟨1⟩, none, 6,
          [NodeKey.actionKey ⟨9⟩, NodeKey.actionKey ⟨9⟩]⟩]).num_nodes = 2 ∧
    (runCalls DefaultBackend.new
        [⟨NodeKey.actionKey ⟨1⟩, none, 4,
          [NodeKey.actionKey ⟨9⟩, NodeKey.actionKey ⟨9⟩]⟩,
         ⟨NodeKey.actionKey ⟨1⟩, none, 6,
          [NodeKey.actionKey ⟨9⟩, NodeKey.actionKey ⟨9⟩]⟩]).num_edges = 2 ∧
    lookupA (runCalls DefaultBackend.new
        [⟨NodeKey.actionKey ⟨1⟩, none, 4,
          [NodeKey.actionKey ⟨9⟩, NodeKey.actionKey ⟨9⟩]⟩,
         ⟨NodeKey.actionKey ⟨1⟩, none, 6,
          [NodeKey.actionKey ⟨9⟩, NodeKey.actionKey ⟨9⟩]⟩]).predecessors
      (NodeKey.actionKey ⟨9⟩) = none := by
  refine ⟨(counters_count_calls _).1, ?_, ?_⟩
  · exact ((counters_count_calls
      [⟨NodeKey.actionKey ⟨1⟩, none, 4,
        [NodeKey.actionKey ⟨9⟩, NodeKey.actionKey ⟨9⟩]⟩,
       ⟨NodeKey.actionKey ⟨1⟩, none, 6,
        [NodeKey.actionKey ⟨9⟩, NodeKey.actionKey ⟨9⟩]⟩]).2.1).trans (by decide)
  · exact ((counters_count_calls []).2.2
      ⟨NodeKey.actionKey ⟨1⟩, none, 4,
        [NodeKey.actionKey ⟨9⟩, NodeKey.actionKey ⟨9⟩]⟩).2
      (NodeKey.actionKey ⟨9⟩) (by decide)

end BuildListener

namespace BuildListener

theorem lookupA_mem_keys {K V : Type} [DecidableEq K]
    (m : List (K × V)) (k : K) (v : V) (h : lookupA m k = some v) :
    k ∈ m.map Prod.fst := by
  unfold lookupA at h
  cases hf : m.find? (fun p => p.1 = k) with
  | none => rw [hf] at h; cases h
  | some p =>
    have hpk : p.1 = k := by simpa using List.find?_some hf
    exact hpk ▸ List.mem_map_of_mem Prod.fst (List.mem_of_find?_eq_some hf)

theorem cpVisited_none {K V : Type} [DecidableEq K]
    (m : List (K × CriticalPathNode K V)) (fuel : Nat) :
    cpVisited m none fuel = [] := by
  cases fuel <;> rfl

theorem cpWalk_none_visited_length {K V : Type} [DecidableEq K]
    (m : List (K × CriticalPathNode K V)) :
    ∀ (fuel : Nat) (s : Option K),
      cpWalk m s fuel = none → (cpVisited m s fuel).length = fuel := by
  intro fuel
  induction fuel with
  | zero =>
    intro s h
    cases s with
    | none => simp [cpWalk] at h
    | some k => rfl
  | succ n ih =>
    intro s h
    cases s with
    | none => simp [cpWalk] at h
    | some k =>
      cases hl : lookupA m k with
      | none => simp [cpWalk, hl] at h
      | some nd =>
        have hin : cpWalk m nd.prev n = none := by
          simp only [cpWalk, hl] at h
          exact Option.map_eq_none'.mp h
        simp only [cpVisited, hl, List.length_cons]
        rw [ih nd.prev hin]

theorem cpVisited_subset_keys {K V : Type} [DecidableEq K]
    (m : List (K × CriticalPathNode K V)) :
    ∀ (fuel : Nat) (s : Option K),
      ∀ x ∈ cpVisited m s fuel, x ∈ m.map Prod.fst := by
  intro fuel
  induction fuel with
  | zero =>
    intro s x hx
    cases s <;> simp [cpVisited] at hx
  | succ n ih =>
    intro s x hx
    cases s with
    | none => simp [cpVisited] at hx
    | some k =>
      cases hl : lookupA m k with
      | none => simp [cpVisited, hl] at hx
      | some nd =>
        simp only [cpVisited, hl, List.mem_cons] at hx
        rcases hx with rfl | hx
        · exact lookupA_mem_keys m x nd hl
        · exact ih nd.prev x hx

/-- C10: the extraction walk terminates (within `|map| + 1` steps) for every
predecessor map whose walk from the terminal never revisits a key — each
non-stopping step visits one distinct key of the map, so a walk outlasting
the key count would repeat one; and a `prev` link to a key absent from the
map ends the walk silently with no entry contributed (the walk returns the
empty continuation, never an error). -/
theorem extract_terminates_on_acyclic {K V : Type} [DecidableEq K]
    (m : List (K × CriticalPathNode K V))
    (hnodup : ∀ fuel, (cpVisited m (terminalKey m) fuel).Nodup) :
    (∃ path, extract_critical_path m (m.length + 1) = some path) ∧
    (∀ (k : K) (fuel : Nat), lookupA m k = none →
      cpWalk m (some k) (fuel + 1) = some []) := by
  constructor
  · cases hw : cpWalk m (terminalKey m) (m.length + 1) with
    | some p =>
      exact ⟨diffAdjacent p.reverse, by simp [extract_critical_path, hw]⟩
    | none =>
      exfalso
      have hlen := cpWalk_none_visited_length m (m.length + 1) (terminalKey m) hw
      have hsub : cpVisited m (terminalKey m) (m.length + 1) ⊆ m.map Prod.fst :=
        fun x hx => cpVisited_subset_keys m (m.length + 1) (terminalKey m) x hx
      have hle := (List.subperm_of_subset (hnodup (m.length + 1)) hsub).length_le
      rw [hlen, List.length_map] at hle
      omega
  · intro k fuel hl
    simp [cpWalk, hl]

/-- Witness for C10: a one-entry map whose `prev` link dangles (key 99 is
absent), so the walk from its terminal visits only key 1 and the extraction
succeeds with the bound `length + 1 = 2`. -/
theorem extract_terminates_on_acyclic_witness :
    (∃ path, extract_critical_path
        ([(1, ⟨5, some 2, some 99⟩)] : List (Nat × CriticalPathNode Nat Nat)) 2 =
        some path) ∧
    cpWalk ([(1, ⟨5, some 2, some 99⟩)] : List (Nat × CriticalPathNode Nat Nat))
      (some 99) 1 = some [] := by
  have h99 : ∀ n, cpVisited
      ([(1, ⟨5, some 2, some 99⟩)] : List (Nat × CriticalPathNode Nat Nat))
      (some 99) n = [] := by
    intro n
    cases n with
    | zero => rfl
    | succ n2 => simp [cpVisited, lookupA]
  have h := extract_terminates_on_acyclic
    ([(1, ⟨5, some 2, some 99⟩)] : List (Nat × CriticalPathNode Nat Nat))
    (by
      intro fuel
      cases fuel with
      | zero => simp [cpVisited, terminalKey, maxByKeyLast, maxStep]
      | succ n =>
        have hv : cpVisited
            ([(1, ⟨5, some 2, some 99⟩)] : List (Nat × CriticalPathNode Nat Nat))
            (terminalKey
              ([(1, ⟨5, some 2, some 99⟩)] : List (Nat × CriticalPathNode Nat Nat)))
            (n + 1) = [1] := by
          simp [cpVisited, terminalKey, maxByKeyLast, maxStep, lookupA, h99]
        rw [hv]
        simp)
  exact ⟨h.1, h.2 99 0 (by decide)⟩

end BuildListener
